import Mathlib

/-!
Verification development for the Bitcoin burnchain indexer module
(`src/burnchains/bitcoin/mod.rs`): the error taxonomy, the network type,
and models of the header-sync / block-delivery pipeline described by the
design document.  Definitions are shallow embeddings of the Rust source;
components whose implementation lives in submodules not present here
(`spv`, `indexer`, `network`) are modelled from the design document and
say so in their doc comments.
-/

namespace Btc

/-- Model of `std::io::Error`: carries its `Display` rendering and its
`description()` string. -/
structure IoError where
  display : String
  descr : String
deriving DecidableEq, Repr

/-- Model of `bitcoin::network::serialize::Error` (`btc_serialize_error`). -/
structure BtcSerializeError where
  display : String
  descr : String
deriving DecidableEq, Repr

/-- Model of `bitcoin::util::hash::HexError` (`btc_hex_error`). -/
structure BtcHexError where
  display : String
  descr : String
deriving DecidableEq, Repr

/-- Model of `jsonrpc::Error` (`jsonrpc_error`). -/
structure JsonRpcError where
  display : String
  descr : String
deriving DecidableEq, Repr

/-- Model of `chainstate::burn::db::Error` (`burndb_error`). -/
structure BurnDbError where
  display : String
  descr : String
deriving DecidableEq, Repr

/-- Bitcoin block header (the fields of `bitcoin::blockdata::block::BlockHeader`).
Hashes are modelled as natural numbers. -/
structure BlockHeader where
  version : Nat
  prev_blockhash : Nat
  merkle_root : Nat
  timestamp : Nat
  bits : Nat
  nonce : Nat
deriving DecidableEq, Repr

/-- Modelled from the spec: the double-SHA256 header hash, abstracted as a
deterministic function of all header fields. -/
def headerHash (h : BlockHeader) : Nat :=
  h.version + 2 * h.prev_blockhash + 3 * h.merkle_root + 5 * h.timestamp
    + 7 * h.bits + 11 * h.nonce

/-- Modelled from the spec: the PoW target implied by the compact `bits`
encoding, abstracted as a monotone function of `bits`. -/
def powTarget (bits : Nat) : Nat := 8 * bits

/-- Modelled from the spec: a header's PoW is valid when its hash does not
exceed the target implied by its `bits`. -/
def powValid (h : BlockHeader) : Bool :=
  headerHash h ≤ powTarget h.bits

/-- Model of `std::sync::Arc`: a reference-counted immutable wrapper. -/
structure Arc (α : Type) where
  val : α
deriving DecidableEq, Repr

/-- Command names of the protocol messages the core exchanges
(§6 of the design document). -/
inductive BitcoinCommand where
  | version
  | verack
  | getheaders
  | headers
  | getdata
  | block
  | ping
  | pong
  | reject
deriving DecidableEq, Repr

/-- Model of `bitcoin::network::message::NetworkMessage`: one wire message,
tagged by command, with the payloads the core inspects. -/
inductive NetworkMessage where
  | version (payload : Nat)
  | verack
  | getheaders (locator : List Nat) (stop_hash : Nat)
  | headers (hs : List BlockHeader)
  | getdata (hashes : List Nat)
  | block (h : BlockHeader)
  | ping (nonce : Nat)
  | pong (nonce : Nat)
  | reject (reason : String)
deriving DecidableEq, Repr

/-- The command tag of a wire message. -/
def NetworkMessage.command : NetworkMessage → BitcoinCommand
  | .version _ => .version
  | .verack => .verack
  | .getheaders _ _ => .getheaders
  | .headers _ => .headers
  | .getdata _ => .getdata
  | .block _ => .block
  | .ping _ => .ping
  | .pong _ => .pong
  | .reject _ => .reject

/-- `pub type PeerMessage = Arc<bitcoin::network::message::NetworkMessage>;` -/
def PeerMessage := Arc NetworkMessage
deriving DecidableEq, Repr

/-- The module's error enumeration (`enum Error` in
`src/burnchains/bitcoin/mod.rs`), variant for variant. -/
inductive Error where
  /-- I/O error -/
  | Io (e : IoError)
  /-- Socket mutex was poisoned -/
  | SocketMutexPoisoned
  /-- Not connected to peer -/
  | SocketNotConnectedToPeer
  /-- Serialization error -/
  | SerializationError (e : BtcSerializeError)
  /-- Invalid Message to peer -/
  | InvalidMessage (msg : PeerMessage)
  /-- Invalid Reply from peer -/
  | InvalidReply
  /-- Invalid magic -/
  | InvalidMagic
  /-- Unhandled message -/
  | UnhandledMessage (msg : PeerMessage)
  /-- Functionality not implemented -/
  | NotImplemented
  /-- Connection is broken and ought to be re-established -/
  | ConnectionBroken
  /-- Connection could not be (re-)established -/
  | ConnectionError
  /-- general filesystem error -/
  | FilesystemError (e : IoError)
  /-- Hashing error -/
  | HashError (e : BtcHexError)
  /-- Non-contiguous header -/
  | NoncontiguousHeader
  /-- Missing header -/
  | MissingHeader
  /-- Invalid target -/
  | InvalidPoW
  /-- RPC error with bitcoin -/
  | JSONRPCError (e : JsonRpcError)
  /-- Thread pipeline error (i.e. a receiving thread died) -/
  | PipelineError
  /-- Wrong number of bytes for constructing an address -/
  | InvalidByteSequence
  /-- Configuration error -/
  | ConfigError (s : String)
  /-- Tried to synchronize to a point above the chain tip -/
  | BlockchainHeight
  /-- Burn database error -/
  | DBError (e : BurnDbError)
  /-- Invalid argument -/
  | InvalidArgument
deriving DecidableEq, Repr

/-- `Error::description` from the `impl error::Error for Error` block. -/
def Error.description : Error → String
  | .Io e => e.descr
  | .SocketMutexPoisoned => "socket mutex was poisoned"
  | .SocketNotConnectedToPeer => "not connected to peer"
  | .SerializationError e => e.descr
  | .InvalidMessage _ => "Invalid message to send"
  | .InvalidReply => "invalid reply for given message"
  | .InvalidMagic => "invalid network magic"
  | .UnhandledMessage _ => "Unhandled message"
  | .NotImplemented => "functionality not implemented"
  | .ConnectionBroken => "connection to peer node is broken"
  | .ConnectionError => "connection to peer could not be (re-)established"
  | .FilesystemError e => e.descr
  | .HashError e => e.descr
  | .NoncontiguousHeader => "Non-contiguous header"
  | .MissingHeader => "Missing header"
  | .InvalidPoW => "Invalid proof of work"
  | .JSONRPCError e => e.descr
  | .PipelineError => "Pipeline broken"
  | .InvalidByteSequence => "Invalid sequence of bytes"
  | .ConfigError s => s
  | .BlockchainHeight => "Value is beyond the end of the blockchain"
  | .DBError e => e.descr
  | .InvalidArgument => "Invalid argument"

/-- `impl fmt::Display for Error`: wrapping variants delegate to the inner
error's `Display`; `ConfigError` displays the contained string; every other
variant writes `error::Error::description(self)`. -/
def Error.fmtDisplay : Error → String
  | .Io e => e.display
  | .SocketMutexPoisoned => Error.description .SocketMutexPoisoned
  | .SocketNotConnectedToPeer => Error.description .SocketNotConnectedToPeer
  | .SerializationError e => e.display
  | .InvalidMessage msg => Error.description (.InvalidMessage msg)
  | .InvalidReply => Error.description .InvalidReply
  | .InvalidMagic => Error.description .InvalidMagic
  | .UnhandledMessage msg => Error.description (.UnhandledMessage msg)
  | .NotImplemented => Error.description .NotImplemented
  | .ConnectionBroken => Error.description .ConnectionBroken
  | .ConnectionError => Error.description .ConnectionError
  | .FilesystemError e => e.display
  | .HashError e => e.display
  | .NoncontiguousHeader => Error.description .NoncontiguousHeader
  | .MissingHeader => Error.description .MissingHeader
  | .InvalidPoW => Error.description .InvalidPoW
  | .JSONRPCError e => e.display
  | .PipelineError => Error.description .PipelineError
  | .InvalidByteSequence => Error.description .InvalidByteSequence
  | .ConfigError s => s
  | .BlockchainHeight => Error.description .BlockchainHeight
  | .DBError e => e.display
  | .InvalidArgument => Error.description .InvalidArgument

/-- The `&dyn error::Error` reference returned by `Error::cause`: one of the
inner error values the wrapping variants hold. -/
inductive CauseRef where
  | io (e : IoError)
  | ser (e : BtcSerializeError)
  | hex (e : BtcHexError)
  | rpc (e : JsonRpcError)
  | db (e : BurnDbError)
deriving DecidableEq, Repr

/-- `Error::cause` from the `impl error::Error for Error` block. -/
def Error.cause : Error → Option CauseRef
  | .Io e => some (.io e)
  | .SocketMutexPoisoned => none
  | .SocketNotConnectedToPeer => none
  | .SerializationError e => some (.ser e)
  | .InvalidMessage _ => none
  | .InvalidReply => none
  | .InvalidMagic => none
  | .UnhandledMessage _ => none
  | .NotImplemented => none
  | .ConnectionBroken => none
  | .ConnectionError => none
  | .FilesystemError e => some (.io e)
  | .HashError e => some (.hex e)
  | .NoncontiguousHeader => none
  | .MissingHeader => none
  | .InvalidPoW => none
  | .JSONRPCError e => some (.rpc e)
  | .PipelineError => none
  | .InvalidByteSequence => none
  | .ConfigError _ => none
  | .BlockchainHeight => none
  | .DBError e => some (.db e)
  | .InvalidArgument => none

/-- The peer-message payload held by the two message-carrying variants. -/
def Error.peerPayload : Error → Option PeerMessage
  | .InvalidMessage msg => some msg
  | .UnhandledMessage msg => some msg
  | _ => none

/-- `enum BitcoinNetworkType` from `src/burnchains/bitcoin/mod.rs`. -/
inductive BitcoinNetworkType where
  | mainnet
  | testnet
  | regtest
deriving DecidableEq, Repr

/-- Modelled from the spec: `HeaderStore` — the ordered local header chain,
a dense sequence of headers starting at `start_height`; `start_prev` is the
hash the first stored header's `prev_blockhash` field carries (the hash of
the block just below the configured start height). -/
structure HeaderStore where
  start_height : Nat
  start_prev : Nat
  headers : List BlockHeader
deriving DecidableEq, Repr

/-- The height the next appended header will occupy (tip height + 1). -/
def HeaderStore.nextHeight (s : HeaderStore) : Nat :=
  s.start_height + s.headers.length

/-- The tip height (start height - 1 for an empty store). -/
def HeaderStore.tipHeight (s : HeaderStore) : Nat :=
  s.start_height + s.headers.length - 1

/-- Hash of the tip header (`start_prev` for an empty store): the value the
next accepted header must link to. -/
def HeaderStore.tipHash (s : HeaderStore) : Nat :=
  match s.headers.getLast? with
  | some h => headerHash h
  | none => s.start_prev

/-- Header lookup by height. -/
def HeaderStore.getHeader (s : HeaderStore) (h : Nat) : Option BlockHeader :=
  if h < s.start_height then none else s.headers[h - s.start_height]?

/-- `linksFrom p hs` holds when each header of `hs` points at its
predecessor's hash, starting from `p`. -/
def linksFrom (p : Nat) : List BlockHeader → Bool
  | [] => true
  | h :: rest => (h.prev_blockhash == p) && linksFrom (headerHash h) rest

/-- Modelled from the spec: `HeaderSyncEngine` per-batch validation — each
header must link to the running tip and carry valid PoW; the first failure
yields `NoncontiguousHeader` or `InvalidPoW` and rejects the whole batch. -/
def validateHeaders (p : Nat) : List BlockHeader → Except Error Unit
  | [] => .ok ()
  | h :: rest =>
    if h.prev_blockhash ≠ p then .error .NoncontiguousHeader
    else if ¬ powValid h then .error .InvalidPoW
    else validateHeaders (headerHash h) rest

/-- Modelled from the spec: the work a header contributes to its chain's
cumulative work, abstracted as a positive deterministic function of its
difficulty `bits`. -/
def headerWork (h : BlockHeader) : Nat := h.bits + 1

/-- Modelled from the spec: the cumulative work of a run of headers. -/
def chainWork (l : List BlockHeader) : Nat := (l.map headerWork).sum

/-- The hash a header appended after the first `k` stored headers must link
to: the hash of the `k`-th stored header, or `start_prev` when `k = 0`. -/
def prefixEndHash (s : HeaderStore) (k : Nat) : Nat :=
  match (s.headers.take k).getLast? with
  | some hd => headerHash hd
  | none => s.start_prev

/-- Modelled from the spec: locating the fork point of an incoming batch
whose first header carries `previous_hash = p` — the longest stored prefix
whose end hash is `p`.  `some k` keeps the first `k` stored headers
(`k = s.headers.length` is a plain tip extension); `none` means the batch
connects to no known ancestor. -/
def forkKeep (s : HeaderStore) (p : Nat) : Option Nat :=
  (List.range (s.headers.length + 1)).reverse.find?
    (fun k => prefixEndHash s k == p)

/-- Modelled from the spec (§4.2): committing one header batch.  `none`
models a batch that never arrived within the request timeout
(`MissingHeader`).  The batch must link to the running tip or to a known
ancestor (the fork point) and validate as a contiguous PoW-valid run from
there; a batch from the tip is appended, while a batch from an earlier
ancestor is a reorg and is committed — rolling the chain back to the fork
point before replaying the new branch — only when the resulting chain
carries greater cumulative work than the current one.  Every failure
rejects the batch wholesale. -/
def acceptBatch (s : HeaderStore) (batch : Option (List BlockHeader)) :
    Except Error HeaderStore :=
  match batch with
  | none => .error .MissingHeader
  | some [] => .ok s
  | some (h0 :: rest) =>
    match forkKeep s h0.prev_blockhash with
    | none => .error .NoncontiguousHeader
    | some k =>
      match validateHeaders (prefixEndHash s k) (h0 :: rest) with
      | .error e => .error e
      | .ok _ =>
        if k = s.headers.length then
          .ok { s with headers := s.headers.take k ++ (h0 :: rest) }
        else if chainWork s.headers <
            chainWork (s.headers.take k ++ (h0 :: rest)) then
          .ok { s with headers := s.headers.take k ++ (h0 :: rest) }
        else
          .error .NoncontiguousHeader

/-- Modelled from the spec: the engine's handling of one batch — on a
validation error the store is kept as it was and the error is reported. -/
def processBatch (s : HeaderStore) (batch : Option (List BlockHeader)) :
    HeaderStore × Option Error :=
  match acceptBatch s batch with
  | .ok s2 => (s2, none)
  | .error e => (s, some e)

/-- The contiguity invariant as the design document states it: every height
from the start height to the tip holds a header, and above the start height
each header's `prev_blockhash` equals the hash of the header one height
below. -/
def contiguousByHeight (s : HeaderStore) : Prop :=
  ∀ h : Nat, s.start_height ≤ h → h < s.nextHeight →
    ∃ hd, s.getHeader h = some hd ∧
      (s.start_height < h →
        ∃ hd2, s.getHeader (h - 1) = some hd2 ∧
          hd.prev_blockhash = headerHash hd2)

/-- Modelled from the spec (§7 taxonomy): only transport errors are retried
by the controller's backoff policy; everything else is surfaced. -/
def isRetryable : Error → Bool
  | .ConnectionBroken => true
  | .ConnectionError => true
  | .Io _ => true
  | _ => false

/-- Modelled from the spec: `sync_to(target_height)` — fails fast with
`BlockchainHeight` when the target lies beyond the best tip the peer's
batch could possibly achieve, otherwise accepts the peer's headers as a
batch and reports `BlockchainHeight` if the tip the peer's chain actually
achieved (for a reorg, a rolled-back-then-replayed chain) still falls
short of the target.  `peerHeaders` is the run of headers the peer
serves. -/
def sync_to (s : HeaderStore) (peerHeaders : List BlockHeader)
    (target_height : Nat) : Except Error HeaderStore :=
  if s.nextHeight + peerHeaders.length ≤ target_height then
    .error .BlockchainHeight
  else
    match acceptBatch s (some peerHeaders) with
    | .error e => .error e
    | .ok s2 =>
      if s2.tipHeight < target_height then .error .BlockchainHeight
      else .ok s2

/-- Modelled from the spec: `BurnchainBlock` — a decoded block at a height,
the unit pushed into the output channel. -/
structure BurnchainBlock where
  block_height : Nat
  block_hash : Nat
deriving DecidableEq, Repr

/-- Modelled from the spec: `BlockFetcher.fetch_block` for the header at
height `h` of the store — yields the decoded block carrying that height and
the stored header's hash. -/
def fetch_block (s : HeaderStore) (h : Nat) : BurnchainBlock :=
  { block_height := h
    block_hash :=
      match s.getHeader h with
      | some hd => headerHash hd
      | none => 0 }

/-- Length of the longest common prefix of two header runs: the headers up
to the first disagreement survived the batch unchanged. -/
def commonPrefixLen : List BlockHeader → List BlockHeader → Nat
  | a :: as, b :: bs => if a = b then commonPrefixLen as bs + 1 else 0
  | _, _ => 0

/-- Modelled from the spec: one round of "synchronize and deliver" — accept
the batch, then fetch and emit one block per newly-accepted height (every
height whose header changed, from the fork point on a reorg) in increasing
height order.  The returned list is the sequence pushed onto the output
channel, in send order. -/
def syncDeliver (s : HeaderStore) (batch : Option (List BlockHeader)) :
    (HeaderStore × List BurnchainBlock) × Option Error :=
  match acceptBatch s batch with
  | .error e => ((s, []), some e)
  | .ok s2 =>
    ((s2,
      (List.range' (s.start_height + commonPrefixLen s.headers s2.headers)
        (s2.nextHeight -
          (s.start_height + commonPrefixLen s.headers s2.headers))).map
        (fetch_block s2)), none)

/-- Modelled from the spec: the bounded output channel
(`std::sync::mpsc::SyncSender`) — a FIFO buffer with a fixed capacity. -/
structure SyncChannel (α : Type) where
  capacity : Nat
  buffer : List α
deriving DecidableEq, Repr

/-- Result of a send on the bounded channel: either the element was
enqueued, or the channel was full and the producer blocks, still holding
the element — it is never dropped. -/
inductive SendResult (α : Type) where
  | sent (ch : SyncChannel α)
  | blocked
deriving DecidableEq, Repr

/-- Modelled from the spec: a send on the bounded channel enqueues at the
back when there is room, and blocks the producer (leaving the channel
untouched and the element with the producer) when the channel is full. -/
def SyncChannel.send {α : Type} (ch : SyncChannel α) (x : α) : SendResult α :=
  if ch.buffer.length < ch.capacity then
    .sent { ch with buffer := ch.buffer ++ [x] }
  else
    .blocked

/-- `pub type BlockSender = SyncSender<Arc<BurnchainBlock<...>>>;` -/
def BlockSender := SyncChannel (Arc BurnchainBlock)

/-- Modelled from the spec: the session's handling of a received reply —
a message whose command is not the expected in-protocol reply is classified
as `UnhandledMessage` carrying the offending message. -/
def handleReply (expected : BitcoinCommand) (m : PeerMessage) :
    Except Error PeerMessage :=
  if m.val.command = expected then .ok m
  else .error (.UnhandledMessage m)

/-! ## Helper lemmas -/

theorem forkKeep_some {s : HeaderStore} {p : Nat} {k : Nat}
    (h : forkKeep s p = some k) :
    k ≤ s.headers.length ∧ prefixEndHash s k = p := by
  unfold forkKeep at h
  have h1 := List.find?_some h
  have h2 := List.mem_of_find?_eq_some h
  constructor
  · have h3 : k ∈ List.range (s.headers.length + 1) :=
      List.mem_reverse.mp h2
    have h4 := List.mem_range.mp h3
    omega
  · simpa [beq_iff_eq] using h1

theorem acceptBatch_ok_shape {s : HeaderStore} {h0 : BlockHeader}
    {rest : List BlockHeader} {s2 : HeaderStore}
    (h : acceptBatch s (some (h0 :: rest)) = .ok s2) :
    ∃ k, forkKeep s h0.prev_blockhash = some k ∧
      validateHeaders (prefixEndHash s k) (h0 :: rest) = .ok () ∧
      s2 = { s with headers := s.headers.take k ++ (h0 :: rest) } := by
  have h2 : (match forkKeep s h0.prev_blockhash with
      | none => (Except.error Error.NoncontiguousHeader :
          Except Error HeaderStore)
      | some k =>
        match validateHeaders (prefixEndHash s k) (h0 :: rest) with
        | .error e => .error e
        | .ok _ =>
          if k = s.headers.length then
            .ok { s with headers := s.headers.take k ++ (h0 :: rest) }
          else if chainWork s.headers <
              chainWork (s.headers.take k ++ (h0 :: rest)) then
            .ok { s with headers := s.headers.take k ++ (h0 :: rest) }
          else
            .error .NoncontiguousHeader) = Except.ok s2 := h
  cases hf : forkKeep s h0.prev_blockhash with
  | none => rw [hf] at h2; exact Except.noConfusion h2
  | some k =>
    rw [hf] at h2
    have h3 : (match validateHeaders (prefixEndHash s k) (h0 :: rest) with
        | Except.error e => (Except.error e : Except Error HeaderStore)
        | Except.ok _ =>
          if k = s.headers.length then
            Except.ok { s with headers := s.headers.take k ++ (h0 :: rest) }
          else if chainWork s.headers <
              chainWork (s.headers.take k ++ (h0 :: rest)) then
            Except.ok { s with headers := s.headers.take k ++ (h0 :: rest) }
          else
            Except.error Error.NoncontiguousHeader) = Except.ok s2 := h2
    cases hv : validateHeaders (prefixEndHash s k) (h0 :: rest) with
    | error e => rw [hv] at h3; exact Except.noConfusion h3
    | ok u =>
      cases u
      rw [hv] at h3
      refine ⟨k, rfl, hv, ?_⟩
      by_cases hk : k = s.headers.length
      · rw [if_pos hk] at h3; cases h3; rfl
      · rw [if_neg hk] at h3
        by_cases hw : chainWork s.headers <
            chainWork (s.headers.take k ++ (h0 :: rest))
        · rw [if_pos hw] at h3; cases h3; rfl
        · rw [if_neg hw] at h3; exact Except.noConfusion h3

theorem validateHeaders_ok {p : Nat} {l : List BlockHeader}
    (h : validateHeaders p l = .ok ()) : linksFrom p l = true := by
  induction l generalizing p with
  | nil => rfl
  | cons a rest ih =>
    simp only [validateHeaders] at h
    by_cases h1 : a.prev_blockhash = p
    · rw [if_neg (not_not_intro h1)] at h
      by_cases h2 : powValid a = true
      · rw [if_neg (not_not_intro h2)] at h
        simp only [linksFrom, Bool.and_eq_true, beq_iff_eq]
        exact ⟨h1, ih h⟩
      · rw [if_pos h2] at h; exact Except.noConfusion h
    · rw [if_pos h1] at h; exact Except.noConfusion h

theorem linksFrom_head {p : Nat} {l : List BlockHeader}
    (hl : linksFrom p l = true) (hne : 0 < l.length) :
    ∃ a, l[0]? = some a ∧ a.prev_blockhash = p := by
  cases l with
  | nil => simp at hne
  | cons x rest =>
    simp only [linksFrom, Bool.and_eq_true, beq_iff_eq] at hl
    exact ⟨x, List.getElem?_cons_zero, hl.1⟩

theorem linksFrom_get {p : Nat} {l : List BlockHeader}
    (hl : linksFrom p l = true) :
    ∀ i : Nat, i + 1 < l.length →
      ∃ a b, l[i]? = some a ∧ l[i + 1]? = some b ∧
        b.prev_blockhash = headerHash a := by
  induction l generalizing p with
  | nil => intro i hi; simp at hi
  | cons x rest ih =>
    intro i hi
    simp only [linksFrom, Bool.and_eq_true, beq_iff_eq] at hl
    cases i with
    | zero =>
      obtain ⟨b, hb0, hbp⟩ := linksFrom_head hl.2
        (by simp only [List.length_cons] at hi; omega)
      exact ⟨x, b, List.getElem?_cons_zero, by simpa [List.getElem?_cons_succ] using hb0, hbp⟩
    | succ j =>
      obtain ⟨a, b, ha, hb, hab⟩ := ih hl.2 j
        (by simp only [List.length_cons] at hi; omega)
      exact ⟨a, b, by simpa [List.getElem?_cons_succ] using ha,
        by simpa [List.getElem?_cons_succ] using hb, hab⟩

theorem getHeader_append_old {s : HeaderStore} {l : List BlockHeader}
    {h : Nat} (hh : h < s.nextHeight) :
    HeaderStore.getHeader { s with headers := s.headers ++ l } h =
      s.getHeader h := by
  unfold HeaderStore.nextHeight at hh
  simp only [HeaderStore.getHeader]
  by_cases hlt : h < s.start_height
  · rw [if_pos hlt, if_pos hlt]
  · rw [if_neg hlt, if_neg hlt]
    exact List.getElem?_append_left (by omega)

theorem getHeader_append_new {s : HeaderStore} {l : List BlockHeader}
    {h : Nat} (hh : s.nextHeight ≤ h) :
    HeaderStore.getHeader { s with headers := s.headers ++ l } h =
      l[h - s.nextHeight]? := by
  unfold HeaderStore.nextHeight at *
  simp only [HeaderStore.getHeader]
  rw [if_neg (by omega)]
  rw [List.getElem?_append_right (by omega)]
  have hidx : h - s.start_height - s.headers.length =
      h - (s.start_height + s.headers.length) := by omega
  rw [hidx]

theorem tipHash_getHeader {s : HeaderStore} (hne : s.headers ≠ []) :
    ∃ hd, s.getHeader s.tipHeight = some hd ∧ s.tipHash = headerHash hd := by
  have hlen : 0 < s.headers.length := List.length_pos.mpr hne
  cases hlast : s.headers.getLast? with
  | none => exact absurd (List.getLast?_eq_none_iff.mp hlast) hne
  | some x =>
    refine ⟨x, ?_, ?_⟩
    · unfold HeaderStore.getHeader HeaderStore.tipHeight
      rw [if_neg (by omega)]
      have hidx : s.start_height + s.headers.length - 1 - s.start_height =
          s.headers.length - 1 := by omega
      rw [hidx, ← List.getLast?_eq_getElem?]
      exact hlast
    · unfold HeaderStore.tipHash
      rw [hlast]

theorem tipHash_take (s : HeaderStore) (k : Nat) :
    ({ s with headers := s.headers.take k } : HeaderStore).tipHash =
      prefixEndHash s k := rfl

theorem contiguous_take (s : HeaderStore) (k : Nat)
    (hcont : contiguousByHeight s) :
    contiguousByHeight { s with headers := s.headers.take k } := by
  intro h hlo hhi
  have hlo2 : s.start_height ≤ h := hlo
  have hhi0 : h < s.start_height + (s.headers.take k).length := hhi
  rw [List.length_take] at hhi0
  have hmin1 : min k s.headers.length ≤ k := Nat.min_le_left _ _
  have hmin2 : min k s.headers.length ≤ s.headers.length :=
    Nat.min_le_right _ _
  obtain ⟨hd, hhd, hlink⟩ := hcont h hlo2 (by
    unfold HeaderStore.nextHeight; omega)
  refine ⟨hd, ?_, ?_⟩
  · simp only [HeaderStore.getHeader] at hhd ⊢
    rw [if_neg (by omega)] at hhd ⊢
    rw [List.getElem?_take, if_pos (by omega)]
    exact hhd
  · intro hgt
    have hgt2 : s.start_height < h := hgt
    obtain ⟨hd2, hhd2, hp⟩ := hlink hgt2
    refine ⟨hd2, ?_, hp⟩
    simp only [HeaderStore.getHeader] at hhd2 ⊢
    rw [if_neg (by omega)] at hhd2 ⊢
    rw [List.getElem?_take, if_pos (by omega)]
    exact hhd2

theorem contiguous_append (s : HeaderStore) (B : List BlockHeader)
    (hcont : contiguousByHeight s)
    (hlinks : linksFrom s.tipHash B = true) :
    contiguousByHeight { s with headers := s.headers ++ B } := by
  intro h hlo hhi
  have hnext : s.nextHeight = s.start_height + s.headers.length := rfl
  have hlo2 : s.start_height ≤ h := hlo
  have hhi2 : h < s.start_height + s.headers.length + B.length := by
    simp only [HeaderStore.nextHeight, List.length_append] at hhi
    omega
  by_cases hold : h < s.nextHeight
  · -- the height lies in the kept region
    obtain ⟨hd, hhd, hlink⟩ := hcont h hlo2 hold
    refine ⟨hd, ?_, ?_⟩
    · rw [getHeader_append_old hold]; exact hhd
    · intro hgt
      have hgt2 : s.start_height < h := hgt
      obtain ⟨hd2, hhd2, hp⟩ := hlink hgt2
      refine ⟨hd2, ?_, hp⟩
      rw [getHeader_append_old (by omega)]
      exact hhd2
  · -- the height lies in the appended run
    have hge : s.nextHeight ≤ h := by omega
    by_cases hfirst : h = s.nextHeight
    · -- first appended header: it links to the tip of the kept region
      obtain ⟨a, ha0, hap⟩ := linksFrom_head hlinks (by omega)
      refine ⟨a, ?_, ?_⟩
      · rw [getHeader_append_new hge]
        have hidx : h - s.nextHeight = 0 := by omega
        rw [hidx]; exact ha0
      · intro hgt
        have hgt2 : s.start_height < h := hgt
        have hslen : 0 < s.headers.length := by omega
        obtain ⟨hd2, hhd2, hth⟩ :=
          tipHash_getHeader (List.length_pos.mp hslen)
        refine ⟨hd2, ?_, ?_⟩
        · rw [getHeader_append_old (by
            unfold HeaderStore.tipHeight at *; omega)]
          have hth2 : h - 1 = s.tipHeight := by
            unfold HeaderStore.tipHeight; omega
          rw [hth2]; exact hhd2
        · rw [hap, hth]
    · -- interior of the appended run: consecutive headers are linked
      have hj : 1 ≤ h - s.nextHeight := by omega
      obtain ⟨a, b, ha, hb, hab⟩ := linksFrom_get hlinks
        (h - s.nextHeight - 1) (by omega)
      refine ⟨b, ?_, ?_⟩
      · rw [getHeader_append_new hge]
        have hidx : h - s.nextHeight = (h - s.nextHeight - 1) + 1 := by
          omega
        rw [hidx]; exact hb
      · intro hgt
        refine ⟨a, ?_, hab⟩
        rw [getHeader_append_new (by omega)]
        have hidx : h - 1 - s.nextHeight = h - s.nextHeight - 1 := by
          omega
        rw [hidx]; exact ha

/-! ## Theorems -/

/-- C4: the program's error type is one flat enumeration whose variants
include, pairwise distinct, all error kinds named by the spec's taxonomy:
transport (`ConnectionBroken`, `ConnectionError`, `Io`), protocol-integrity
(`InvalidMagic`, `SerializationError`, `InvalidMessage`,
`InvalidByteSequence`), chain-integrity (`InvalidPoW`,
`NoncontiguousHeader`, `MissingHeader`), configuration/usage
(`ConfigError`, `InvalidArgument`, `BlockchainHeight`), and
`PipelineError`. -/
theorem error_taxonomy_variants_distinct (ioe : IoError)
    (se : BtcSerializeError) (m : PeerMessage) (s : String) :
    List.Pairwise (fun a b => a ≠ b)
      [Error.ConnectionBroken, Error.ConnectionError, Error.Io ioe,
       Error.InvalidMagic, Error.SerializationError se,
       Error.InvalidMessage m, Error.InvalidByteSequence, Error.InvalidPoW,
       Error.NoncontiguousHeader, Error.MissingHeader, Error.ConfigError s,
       Error.InvalidArgument, Error.BlockchainHeight, Error.PipelineError] := by
  simp [List.pairwise_cons]

/-- C6: the network type ranges over exactly three values — mainnet,
testnet, regtest — and equality on it is decidable and holds exactly when
the two values are the same variant. -/
theorem networkType_three_values_decidable_eq :
    (∀ x : BitcoinNetworkType, x = .mainnet ∨ x = .testnet ∨ x = .regtest) ∧
    (∀ a b : BitcoinNetworkType, decide (a = b) = true ↔ a = b) ∧
    (BitcoinNetworkType.mainnet ≠ .testnet ∧
      BitcoinNetworkType.testnet ≠ .regtest ∧
      BitcoinNetworkType.mainnet ≠ .regtest) := by
  refine ⟨fun x => by cases x <;> simp, fun a b => decide_eq_true_iff, by decide⟩

/-- C7: an out-of-protocol message from the peer is classified as
`UnhandledMessage`, a variant distinct from `InvalidMessage` (a message the
session itself tried to send incorrectly); both variants carry the
offending peer message as payload. -/
theorem unhandled_message_classification (expected : BitcoinCommand)
    (m : PeerMessage) (hne : m.val.command ≠ expected) :
    handleReply expected m = .error (.UnhandledMessage m) ∧
    (∀ m2 : PeerMessage, Error.UnhandledMessage m ≠ Error.InvalidMessage m2) ∧
    (Error.UnhandledMessage m).peerPayload = some m ∧
    (∀ m2 : PeerMessage, (Error.InvalidMessage m2).peerPayload = some m2) := by
  refine ⟨?_, fun m2 h => Error.noConfusion h, rfl, fun m2 => rfl⟩
  unfold handleReply
  rw [if_neg hne]

/-- C7 witness: a `ping` received while a `headers` reply was expected is
classified as `UnhandledMessage`. -/
theorem unhandled_message_classification_witness :
    handleReply .headers ⟨.ping 0⟩ = .error (.UnhandledMessage ⟨.ping 0⟩) :=
  (unhandled_message_classification .headers ⟨.ping 0⟩ (by decide)).1

/-- C9: for every `Error` variant that wraps no inner error value, `Display`
output equals the fixed string `description()` returns; for `ConfigError s`
both `Display` and `description()` yield exactly the contained string. -/
theorem display_matches_description (m m2 : PeerMessage) (s : String) :
    Error.fmtDisplay .SocketMutexPoisoned
        = Error.description .SocketMutexPoisoned ∧
    Error.fmtDisplay .SocketNotConnectedToPeer
        = Error.description .SocketNotConnectedToPeer ∧
    Error.fmtDisplay (.InvalidMessage m)
        = Error.description (.InvalidMessage m) ∧
    Error.fmtDisplay .InvalidReply = Error.description .InvalidReply ∧
    Error.fmtDisplay .InvalidMagic = Error.description .InvalidMagic ∧
    Error.fmtDisplay (.UnhandledMessage m2)
        = Error.description (.UnhandledMessage m2) ∧
    Error.fmtDisplay .NotImplemented = Error.description .NotImplemented ∧
    Error.fmtDisplay .ConnectionBroken = Error.description .ConnectionBroken ∧
    Error.fmtDisplay .ConnectionError = Error.description .ConnectionError ∧
    Error.fmtDisplay .NoncontiguousHeader
        = Error.description .NoncontiguousHeader ∧
    Error.fmtDisplay .MissingHeader = Error.description .MissingHeader ∧
    Error.fmtDisplay .InvalidPoW = Error.description .InvalidPoW ∧
    Error.fmtDisplay .PipelineError = Error.description .PipelineError ∧
    Error.fmtDisplay .InvalidByteSequence
        = Error.description .InvalidByteSequence ∧
    Error.fmtDisplay .BlockchainHeight
        = Error.description .BlockchainHeight ∧
    Error.fmtDisplay .InvalidArgument = Error.description .InvalidArgument ∧
    Error.fmtDisplay (.ConfigError s) = s ∧
    Error.description (.ConfigError s) = s :=
  ⟨rfl, rfl, rfl, rfl, rfl, rfl, rfl, rfl, rfl, rfl, rfl, rfl, rfl, rfl,
    rfl, rfl, rfl, rfl⟩

/-- C10: `cause()` returns `Some` of the inner error exactly for the
wrapping variants `Io`, `SerializationError`, `FilesystemError`,
`HashError`, `JSONRPCError`, `DBError`, and `None` for every other variant,
including the payload-carrying `InvalidMessage`, `UnhandledMessage` and
`ConfigError`. -/
theorem cause_exactly_wrapping_variants (ioe fse : IoError)
    (se : BtcSerializeError) (he : BtcHexError) (re : JsonRpcError)
    (de : BurnDbError) (m m2 : PeerMessage) (s : String) :
    Error.cause (.Io ioe) = some (.io ioe) ∧
    Error.cause (.SerializationError se) = some (.ser se) ∧
    Error.cause (.FilesystemError fse) = some (.io fse) ∧
    Error.cause (.HashError he) = some (.hex he) ∧
    Error.cause (.JSONRPCError re) = some (.rpc re) ∧
    Error.cause (.DBError de) = some (.db de) ∧
    Error.cause .SocketMutexPoisoned = none ∧
    Error.cause .SocketNotConnectedToPeer = none ∧
    Error.cause (.InvalidMessage m) = none ∧
    Error.cause .InvalidReply = none ∧
    Error.cause .InvalidMagic = none ∧
    Error.cause (.UnhandledMessage m2) = none ∧
    Error.cause .NotImplemented = none ∧
    Error.cause .ConnectionBroken = none ∧
    Error.cause .ConnectionError = none ∧
    Error.cause .NoncontiguousHeader = none ∧
    Error.cause .MissingHeader = none ∧
    Error.cause .InvalidPoW = none ∧
    Error.cause .PipelineError = none ∧
    Error.cause .InvalidByteSequence = none ∧
    Error.cause (.ConfigError s) = none ∧
    Error.cause .BlockchainHeight = none ∧
    Error.cause .InvalidArgument = none :=
  ⟨rfl, rfl, rfl, rfl, rfl, rfl, rfl, rfl, rfl, rfl, rfl, rfl, rfl, rfl,
    rfl, rfl, rfl, rfl, rfl, rfl, rfl, rfl, rfl⟩

/-- C2: when header-batch validation fails with a chain-integrity error
(`InvalidPoW`, `NoncontiguousHeader` or `MissingHeader`), the whole batch
is rejected and the store is left exactly as it was — no header of the
batch is partially committed. -/
theorem rejected_batch_leaves_store (s : HeaderStore)
    (batch : Option (List BlockHeader)) (s2 : HeaderStore) (e : Error)
    (hrun : processBatch s batch = (s2, some e))
    (hchain : e = .InvalidPoW ∨ e = .NoncontiguousHeader ∨
      e = .MissingHeader) :
    s2 = s := by
  unfold processBatch at hrun
  cases hacc : acceptBatch s batch with
  | ok s3 => rw [hacc] at hrun; cases hrun
  | error e2 => rw [hacc] at hrun; cases hrun; rfl

/-- C2 witness: a batch whose first header does not link to the tip is
rejected with `NoncontiguousHeader` and the empty store is unchanged. -/
theorem rejected_batch_leaves_store_witness :
    (⟨0, 0, []⟩ : HeaderStore) = ⟨0, 0, []⟩ :=
  rejected_batch_leaves_store ⟨0, 0, []⟩ (some [⟨0, 1, 0, 0, 0, 0⟩])
    ⟨0, 0, []⟩ .NoncontiguousHeader (by decide) (.inr (.inl rfl))

/-- C3: in every run of synchronize-and-deliver, the sequence of blocks
pushed onto the output channel is strictly increasing by height — the
consumer never observes block N+1 before block N. -/
theorem delivered_blocks_strictly_increasing (s : HeaderStore)
    (batch : Option (List BlockHeader)) :
    List.Pairwise (fun a b => a.block_height < b.block_height)
      ((syncDeliver s batch).1.2) := by
  unfold syncDeliver
  cases hacc : acceptBatch s batch with
  | error e => simp
  | ok s2 =>
    simp only [List.pairwise_map]
    exact (List.pairwise_lt_range'
      (s.start_height + commonPrefixLen s.headers s2.headers)
      (s2.nextHeight -
        (s.start_height + commonPrefixLen s.headers s2.headers))).imp
      (fun hab => hab)

/-- C5: the output channel element type is `Arc<BurnchainBlock>` and the
channel is a bounded FIFO: a successful send appends the element at the
back (capacity unchanged, nothing dropped), and a send on a full channel
blocks — it does not drop the element. -/
theorem blockSender_bounded_lossless :
    (BlockSender = SyncChannel (Arc BurnchainBlock)) ∧
    (∀ (ch : SyncChannel (Arc BurnchainBlock)) (x : Arc BurnchainBlock),
      (∀ ch2, ch.send x = .sent ch2 →
        ch2.buffer = ch.buffer ++ [x] ∧ ch2.capacity = ch.capacity) ∧
      (ch.send x = .blocked → ch.capacity ≤ ch.buffer.length)) := by
  refine ⟨rfl, fun ch x => ⟨?_, ?_⟩⟩
  · intro ch2 h
    unfold SyncChannel.send at h
    by_cases hlt : ch.buffer.length < ch.capacity
    · rw [if_pos hlt] at h; cases h; exact ⟨rfl, rfl⟩
    · rw [if_neg hlt] at h; cases h
  · intro h
    unfold SyncChannel.send at h
    by_cases hlt : ch.buffer.length < ch.capacity
    · rw [if_pos hlt] at h; cases h
    · omega

/-- C5 witness: sending into a one-slot channel with room enqueues the
block at the back; sending into the same channel when full blocks (the
channel was at capacity). -/
theorem blockSender_bounded_lossless_witness :
    (({ capacity := 1, buffer := [⟨⟨2, 2⟩⟩] } :
        SyncChannel (Arc BurnchainBlock)).buffer = [] ++ [⟨⟨2, 2⟩⟩] ∧
      ({ capacity := 1, buffer := [⟨⟨2, 2⟩⟩] } :
        SyncChannel (Arc BurnchainBlock)).capacity = 1) ∧
    (1 : Nat) ≤ 1 :=
  ⟨(blockSender_bounded_lossless.2 ⟨1, []⟩ ⟨⟨2, 2⟩⟩).1 ⟨1, [⟨⟨2, 2⟩⟩]⟩
      (by decide),
    (blockSender_bounded_lossless.2 ⟨1, [⟨⟨1, 1⟩⟩]⟩ ⟨⟨2, 2⟩⟩).2 (by decide)⟩

/-- C8: a `sync_to` target beyond what the peer's chain can achieve fails
with `BlockchainHeight`, which the controller never retries; on success the
store's tip height is at least the target. -/
theorem sync_to_height_guarantee (s : HeaderStore)
    (peer : List BlockHeader) (t : Nat) :
    (s.nextHeight + peer.length ≤ t →
      sync_to s peer t = .error .BlockchainHeight ∧
        isRetryable .BlockchainHeight = false) ∧
    (∀ s2, sync_to s peer t = .ok s2 → t ≤ s2.tipHeight) := by
  constructor
  · intro hbeyond
    unfold sync_to
    rw [if_pos hbeyond]
    exact ⟨rfl, rfl⟩
  · intro s2 hok
    unfold sync_to at hok
    by_cases hbeyond : s.nextHeight + peer.length ≤ t
    · rw [if_pos hbeyond] at hok; exact Except.noConfusion hok
    · rw [if_neg hbeyond] at hok
      cases hacc : acceptBatch s (some peer) with
      | error e =>
        rw [hacc] at hok
        exact Except.noConfusion hok
      | ok s3 =>
        rw [hacc] at hok
        have hok2 : (if s3.tipHeight < t then
            (Except.error Error.BlockchainHeight : Except Error HeaderStore)
            else .ok s3) = .ok s2 := hok
        by_cases htip : s3.tipHeight < t
        · rw [if_pos htip] at hok2; exact Except.noConfusion hok2
        · rw [if_neg htip] at hok2
          cases hok2
          omega

/-- C8 witness: asking an empty store with an empty peer chain for height 0
fails with `BlockchainHeight` (not retryable); syncing one valid header
reaches tip height 0 ≥ target 0. -/
theorem sync_to_height_guarantee_witness :
    (sync_to ⟨0, 0, []⟩ [] 0 = .error .BlockchainHeight ∧
      isRetryable .BlockchainHeight = false) ∧
    (0 : Nat) ≤ (⟨0, 0, [⟨0, 0, 0, 0, 0, 0⟩]⟩ : HeaderStore).tipHeight :=
  ⟨(sync_to_height_guarantee ⟨0, 0, []⟩ [] 0).1 (by decide),
    (sync_to_height_guarantee ⟨0, 0, []⟩ [⟨0, 0, 0, 0, 0, 0⟩] 0).2
      ⟨0, 0, [⟨0, 0, 0, 0, 0, 0⟩]⟩ (by rfl)⟩

/-- C1: every accepted header batch keeps the `HeaderStore` strictly
contiguous by height — every height from the start height to the tip holds
a header (no gaps, no duplicate heights) and, above the start height, each
header's `previous_hash` equals the hash of the header at the height
below. -/
theorem accepted_batch_contiguous (s : HeaderStore)
    (batch : Option (List BlockHeader)) (s2 : HeaderStore)
    (hcont : contiguousByHeight s) (hacc : acceptBatch s batch = .ok s2) :
    contiguousByHeight s2 := by
  cases batch with
  | none => exact Except.noConfusion hacc
  | some hs =>
    cases hs with
    | nil =>
      have h2 : (Except.ok s : Except Error HeaderStore) = .ok s2 := hacc
      cases h2
      exact hcont
    | cons h0 rest =>
      obtain ⟨k, hf, hv, hshape⟩ := acceptBatch_ok_shape hacc
      obtain ⟨hk, hpe⟩ := forkKeep_some hf
      subst hshape
      have hlinks : linksFrom (prefixEndHash s k) (h0 :: rest) = true :=
        validateHeaders_ok hv
      -- rolling back to the fork point keeps the store contiguous,
      -- and the replayed branch is appended at its tip
      have htr := contiguous_take s k hcont
      have happ := contiguous_append { s with headers := s.headers.take k }
        (h0 :: rest) htr (by rw [tipHash_take]; exact hlinks)
      exact happ

/-- C1 witness: a single-header batch forking below the tip of a two-header
store, carrying more cumulative work, is accepted as a reorg and the
rolled-back-and-replayed store is contiguous by height. -/
theorem accepted_batch_contiguous_witness :
    contiguousByHeight
      ⟨0, 0, [⟨0, 0, 0, 0, 1, 0⟩, ⟨1, 7, 0, 0, 15, 0⟩]⟩ :=
  accepted_batch_contiguous
    ⟨0, 0, [⟨0, 0, 0, 0, 1, 0⟩, ⟨0, 7, 0, 0, 14, 0⟩]⟩
    (some [⟨1, 7, 0, 0, 15, 0⟩])
    ⟨0, 0, [⟨0, 0, 0, 0, 1, 0⟩, ⟨1, 7, 0, 0, 15, 0⟩]⟩
    (by
      intro h hlo hhi
      have hh2 : h < 2 := hhi
      interval_cases h
      · exact ⟨⟨0, 0, 0, 0, 1, 0⟩, by decide,
          fun hgt => absurd hgt (by decide)⟩
      · exact ⟨⟨0, 7, 0, 0, 14, 0⟩, by decide,
          fun hgt => ⟨⟨0, 0, 0, 0, 1, 0⟩, by decide, by decide⟩⟩)
    (by rfl)

end Btc
